import Mathlib

/-!
Shallow embedding of the T9 keyboard decoding engine of
`src/src/lv_keyboard_t9.c` (function `t9_btn_event_cb` and the helper
callbacks `t9_symbol_btn_event_cb`, `t9_popover_close_btn_event_cb`,
together with the static tables at the top of the file).

Modelling conventions:
- A T9 button is identified by its `char_idx` (`get_btn_char_idx`), a value
  in `Fin 10`: the key labelled "1" is index 0, keys "2".."9" are indices
  1..8, and the key labelled "0" is index 9.
- `uint32_t` tick arithmetic is modelled on `Nat` with explicit reduction
  modulo 2^32 (`u32`, `u32sub`); the `uint8_t` cycle counters are reduced
  modulo 256 where the source increments them.
- The linked textarea (`linked_ta`) is modelled as always present, as a
  `List Char` whose cursor sits at the end (the source repositions the
  cursor to the end before every edit).
- Reading `chars[i]` from a NUL-terminated C string is modelled by
  `strRead`: indices below the length give the stored character, the index
  equal to the length gives the terminator, and any larger index is an
  out-of-bounds read, modelled as `none` (undefined behavior).
- The popover widget created by `t9_show_symbol_popover` is modelled as the
  `popover` field holding the symbol list it displays; deleting the widget
  clears the field.
-/

/-- Input mode, `t9_mode_t` in the source: `T9_MODE_LOWER`, `T9_MODE_UPPER`,
`T9_MODE_NUMBERS`. -/
inductive T9Mode
  | lower
  | upper
  | numbers
  deriving DecidableEq, Repr, Fintype

/-- Extended symbol set `t9_btn_symbols_0` (15 symbols, ASCII 33..47),
`static const char t9_btn_symbols_0[]` in the source. -/
def t9_btn_symbols_0 : List Char := "!\"#$%&'()*+,-./".toList

/-- Extended symbol set `t9_btn_symbols_1` (17 symbols: ASCII 58..64,
91..96, 123..126), `static const char t9_btn_symbols_1[]` in the source. -/
def t9_btn_symbols_1 : List Char := ":;<=>?@[\\]^_`\x7b|\x7d~".toList

/-- Lower-case candidate table `t9_btn_chars_lower`. Entries 0 and 9 are
`NULL` in the source; they are never dereferenced because `t9_chars`
dispatches indices 0 and 9 to the symbol arrays first, so we return `[]`
for them here. -/
def t9_btn_chars_lower (i : Fin 10) : List Char :=
  match i.val with
  | 1 => "abc2".toList
  | 2 => "def3".toList
  | 3 => "ghi4".toList
  | 4 => "jkl5".toList
  | 5 => "mno6".toList
  | 6 => "pqrs7".toList
  | 7 => "tuv8".toList
  | 8 => "wxyz9".toList
  | _ => []

/-- Upper-case candidate table `t9_btn_chars_upper` (entries 0 and 9 are
`NULL` in the source, see `t9_btn_chars_lower`). -/
def t9_btn_chars_upper (i : Fin 10) : List Char :=
  match i.val with
  | 1 => "ABC2".toList
  | 2 => "DEF3".toList
  | 3 => "GHI4".toList
  | 4 => "JKL5".toList
  | 5 => "MNO6".toList
  | 6 => "PQRS7".toList
  | 7 => "TUV8".toList
  | 8 => "WXYZ9".toList
  | _ => []

/-- Numeric candidate table `t9_btn_chars_numbers`:
`{"1","2","3","4","5","6","7","8","9","0"}`. -/
def t9_btn_chars_numbers (i : Fin 10) : List Char :=
  match i.val with
  | 0 => "1".toList
  | 1 => "2".toList
  | 2 => "3".toList
  | 3 => "4".toList
  | 4 => "5".toList
  | 5 => "6".toList
  | 6 => "7".toList
  | 7 => "8".toList
  | 8 => "9".toList
  | _ => "0".toList

/-- `T9_CYCLE_TIMEOUT_MS` in the source. -/
def T9_CYCLE_TIMEOUT_MS : Nat := 1000

/-- Modulus of `uint32_t` arithmetic. -/
def U32 : Nat := 4294967296

/-- Reduction to `uint32_t` range. -/
def u32 (n : Nat) : Nat := n % U32

/-- `uint32_t` subtraction `a - b` (wrapping), as used by
`now - t9_btn_last_press_time[char_idx]` in the source. -/
def u32sub (a b : Nat) : Nat := (u32 a + U32 - u32 b) % U32

/-- A text edit emitted to the linked textarea: `lv_textarea_add_text` of a
single character at the end, or `lv_textarea_delete_char` at the end. -/
inductive TextEdit
  | insertChar (c : Char)
  | deleteLastChar
  deriving DecidableEq, Repr

/-- Apply one edit to the buffer (cursor at end of text). -/
def applyEdit (buf : List Char) : TextEdit → List Char
  | TextEdit.insertChar c => buf ++ [c]
  | TextEdit.deleteLastChar => buf.dropLast

/-- Apply a list of edits in order. -/
def applyEdits (buf : List Char) (es : List TextEdit) : List Char :=
  es.foldl applyEdit buf

/-- Engine state: the process-wide mutable globals of the source
(`t9_mode`, `t9_btn_cycle_idx`, `t9_btn_last_press_time`, the static
`last_char_idx` of `t9_btn_event_cb`, the linked textarea content, and the
symbol popover, if one is displayed). -/
structure T9State where
  mode : T9Mode
  cycleIdx : Fin 10 → Nat
  lastPressTime : Fin 10 → Nat
  lastCharIdx : Option (Fin 10)
  buffer : List Char
  popover : Option (List Char)

/-- Initial state: `t9_mode = T9_MODE_LOWER`, all cycle indices and press
times zero, `last_char_idx = -1`, empty textarea, no popover. -/
def initState : T9State :=
  { mode := T9Mode.lower
    cycleIdx := fun _ => 0
    lastPressTime := fun _ => 0
    lastCharIdx := none
    buffer := []
    popover := none }

/-- Read `cs[i]` from a NUL-terminated string whose stored characters are
`cs`: in-range indices give the character, the index `cs.length` gives the
terminator (`Char.ofNat 0`), and larger indices are out-of-bounds reads
(undefined behavior), modelled as `none`. -/
def strRead (cs : List Char) (i : Nat) : Option Char :=
  if h : i < cs.length then some (cs.get ⟨i, h⟩)
  else if i = cs.length then some (Char.ofNat 0)
  else none

/-- The active character array chosen by `t9_btn_event_cb`
(lines 293..307): the symbol arrays for indices 0 and 9 (keys "1" and "0")
regardless of mode, else the table of the current mode. The long-press
branch (lines 248..282) selects the same array. -/
def t9_chars (mode : T9Mode) (i : Fin 10) : List Char :=
  if i.val = 0 then t9_btn_symbols_1
  else if i.val = 9 then t9_btn_symbols_0
  else
    match mode with
    | T9Mode.numbers => t9_btn_chars_numbers i
    | T9Mode.upper => t9_btn_chars_upper i
    | T9Mode.lower => t9_btn_chars_lower i

/-- Reset test of `t9_btn_event_cb` (line 287):
`char_idx != last_char_idx || now - t9_btn_last_press_time[char_idx] > T9_CYCLE_TIMEOUT_MS`. -/
def resetCond (s : T9State) (i : Fin 10) (now : Nat) : Bool :=
  decide (s.lastCharIdx ≠ some i) ||
    decide (T9_CYCLE_TIMEOUT_MS < u32sub now (s.lastPressTime i))

/-- A press is a continuation: same key as the active key and within the
cycle timeout (boundary inclusive). This is the negation of `resetCond`. -/
def isCont (s : T9State) (i : Fin 10) (now : Nat) : Bool :=
  decide (s.lastCharIdx = some i) &&
    decide (u32sub now (s.lastPressTime i) ≤ T9_CYCLE_TIMEOUT_MS)

/-- The cycle index actually used for the read `chars[*cycle]`: 0 after a
reset, else the stored index. -/
def cyc0 (s : T9State) (i : Fin 10) (now : Nat) : Nat :=
  if resetCond s i now then 0 else s.cycleIdx i

/-- The character a press commits (the resolved cycle character): the
active array at the used index, wrapped modulo the array length (the
source wraps by testing for the terminator). Meaningful whenever the used
index is at most the array length. -/
def commitChar (s : T9State) (i : Fin 10) (now : Nat) : Char :=
  (t9_chars s.mode i).getD (cyc0 s i now % (t9_chars s.mode i).length) (Char.ofNat 0)

/-- The edits a numeric-key press emits: insert only on a fresh cycle or an
empty buffer, otherwise delete-then-insert (replace). -/
def pressEdits (s : T9State) (i : Fin 10) (now : Nat) : List TextEdit :=
  if resetCond s i now || decide (s.buffer = []) then
    [TextEdit.insertChar (commitChar s i now)]
  else
    [TextEdit.deleteLastChar, TextEdit.insertChar (commitChar s i now)]

/-- The numeric-key (CLICKED) branch of `t9_btn_event_cb`, lines 284..339:
decide reset, update the press time, read the active array at the stored
index, wrap on the terminator, emit the edits, record the active key and
post-increment the cycle index. `none` models the out-of-bounds read that
happens when the stored index lies beyond the terminator. -/
def pressNumeric (s : T9State) (i : Fin 10) (now : Nat) :
    Option (T9State × List TextEdit) :=
  (strRead (t9_chars s.mode i) (cyc0 s i now)).map (fun c0 =>
    let chars := t9_chars s.mode i
    let j := cyc0 s i now
    let j1 := if c0 = Char.ofNat 0 then 0 else j
    let c := if c0 = Char.ofNat 0 then chars.headD (Char.ofNat 0) else c0
    let edits : List TextEdit :=
      if c = ' ' then []
      else if resetCond s i now || decide (s.lastCharIdx ≠ some i) ||
          decide (s.buffer = []) then
        [TextEdit.insertChar c]
      else
        [TextEdit.deleteLastChar, TextEdit.insertChar c]
    ({ mode := s.mode
       cycleIdx := Function.update s.cycleIdx i ((j1 + 1) % 256)
       lastPressTime := Function.update s.lastPressTime i (u32 now)
       lastCharIdx := some i
       buffer := applyEdits s.buffer edits
       popover := s.popover }, edits))

/-- The LONG_PRESSED branch of `t9_btn_event_cb`, lines 246..282: key "1"
(index 0) opens the popover of `t9_btn_symbols_1`, key "0" (index 9) the
popover of `t9_btn_symbols_0`, and keys "2".."9" the popover of their
current-mode candidate array. Returns the new state and the symbol list
the popover displays. No cycle or mode state is touched. -/
def longPress (s : T9State) (i : Fin 10) : T9State × List Char :=
  ({ s with popover := some (t9_chars s.mode i) }, t9_chars s.mode i)

/-- `t9_symbol_btn_event_cb`: insert the selected character into the
textarea and delete the popover. The source performs no membership check
on the character. -/
def symbolSelect (s : T9State) (c : Char) : T9State × List TextEdit :=
  ({ s with buffer := s.buffer ++ [c], popover := none },
    [TextEdit.insertChar c])

/-- `t9_popover_close_btn_event_cb`: delete the popover, no edit. -/
def dismissPopover (s : T9State) : T9State := { s with popover := none }

/-- Space helper button (line 425..429): insert a space. No other state is
touched. -/
def pressSpace (s : T9State) : T9State × List TextEdit :=
  ({ s with buffer := s.buffer ++ [' '] }, [TextEdit.insertChar ' '])

/-- Backspace helper button: delete the last character. -/
def pressBackspace (s : T9State) : T9State × List TextEdit :=
  ({ s with buffer := s.buffer.dropLast }, [TextEdit.deleteLastChar])

/-- The "abc"/"ABC" helper button (lines 368..396): a no-op in numeric
mode, else flip lower/upper. Only `t9_mode` changes (the rest of the
branch updates button labels). -/
def toggleAlpha (s : T9State) : T9State :=
  match s.mode with
  | T9Mode.numbers => s
  | T9Mode.lower => { s with mode := T9Mode.upper }
  | T9Mode.upper => { s with mode := T9Mode.lower }

/-- The numeric-toggle helper button (lines 397..424): numeric mode flips
back to lower, any other mode enters numeric. Only `t9_mode` changes. -/
def toggleNumeric (s : T9State) : T9State :=
  match s.mode with
  | T9Mode.numbers => { s with mode := T9Mode.lower }
  | _ => { s with mode := T9Mode.numbers }

/-- The character a list of emitted edits commits into the buffer. -/
def committedChar : List TextEdit → Option Char
  | [TextEdit.insertChar c] => some c
  | [TextEdit.deleteLastChar, TextEdit.insertChar c] => some c
  | _ => none

/-- Run a sequence of presses of the same key at the given times,
collecting the committed characters. -/
def runPresses (i : Fin 10) : T9State → List Nat → Option (T9State × List Char)
  | s, [] => some (s, [])
  | s, t :: ts =>
    (pressNumeric s i t).bind (fun p =>
      (committedChar p.2).bind (fun c =>
        (runPresses i p.1 ts).map (fun q => (q.1, c :: q.2))))

/-- Well-formed press-time chain starting after time `prev`: each time is
at least the previous one, within the cycle timeout of it, and below the
`uint32_t` modulus. -/
def chainOk : Nat → List Nat → Bool
  | _, [] => true
  | prev, t :: ts =>
    decide (prev ≤ t) && decide (t - prev ≤ T9_CYCLE_TIMEOUT_MS) &&
      decide (t < U32) && chainOk t ts

/-- Facts about every active character array: non-empty, at most 17
characters, and containing neither the terminator nor a space. -/
theorem t9_chars_facts :
    ∀ (m : T9Mode) (i : Fin 10),
      t9_chars m i ≠ [] ∧ (t9_chars m i).length ≤ 17 ∧
      Char.ofNat 0 ∉ t9_chars m i ∧ ' ' ∉ t9_chars m i := by decide

theorem strRead_lt (cs : List Char) (i : Nat) (h : i < cs.length) :
    strRead cs i = some (cs.get ⟨i, h⟩) := dif_pos h

theorem strRead_len (cs : List Char) : strRead cs cs.length = some (Char.ofNat 0) := by
  unfold strRead
  rw [dif_neg (lt_irrefl _), if_pos rfl]

theorem strRead_gt (cs : List Char) (i : Nat) (h : cs.length < i) :
    strRead cs i = none := by
  unfold strRead
  rw [dif_neg (by omega), if_neg (by omega)]

theorem headD_eq_getD (cs : List Char) (d : Char) : cs.headD d = cs.getD 0 d := by
  cases cs <;> rfl

/-- Wrapping `uint32_t` subtraction agrees with `Nat` subtraction when no
wrap occurs. -/
theorem u32sub_eq (a b : Nat) (hb : b ≤ a) (ha : a < U32) : u32sub a b = a - b := by
  have hbU : b < U32 := lt_of_le_of_lt hb ha
  unfold u32sub u32
  rw [Nat.mod_eq_of_lt ha, Nat.mod_eq_of_lt hbU]
  have h1 : a + U32 - b = (a - b) + U32 := by omega
  rw [h1, Nat.add_mod_right, Nat.mod_eq_of_lt (by omega)]

/-- The reset test is the negation of the continuation test. -/
theorem resetCond_eq_not_isCont (s : T9State) (i : Fin 10) (now : Nat) :
    resetCond s i now = !isCont s i now := by
  unfold resetCond isCont
  by_cases h1 : s.lastCharIdx = some i <;>
    by_cases h2 : u32sub now (s.lastPressTime i) ≤ T9_CYCLE_TIMEOUT_MS <;>
      simp [h1, h2, Nat.not_le.mpr, Nat.lt_of_not_le]

/-- The inner `(char_idx != last_char_idx)` disjunct of the insert test
(line 321) is subsumed by `resetCond` (line 287). -/
theorem insert_test_eq (s : T9State) (i : Fin 10) (now : Nat) :
    (resetCond s i now || decide (s.lastCharIdx ≠ some i) ||
        decide (s.buffer = []))
      = (resetCond s i now || decide (s.buffer = [])) := by
  unfold resetCond
  cases h1 : decide (s.lastCharIdx ≠ some i) <;>
    cases h2 : decide (T9_CYCLE_TIMEOUT_MS < u32sub now (s.lastPressTime i)) <;>
      cases h3 : decide (s.buffer = []) <;> rfl

/-- Characterisation of a defined numeric-key press: if the used cycle
index is at most the length of the active array (the read stays inside the
array), the press succeeds, emits `pressEdits` and produces the state with
the cycle index post-incremented past the wrapped position, the press time
stored, and the key recorded as active. -/
theorem press_spec (s : T9State) (i : Fin 10) (now : Nat)
    (hle : cyc0 s i now ≤ (t9_chars s.mode i).length) :
    pressNumeric s i now =
      some ({ mode := s.mode
              cycleIdx := Function.update s.cycleIdx i
                (cyc0 s i now % (t9_chars s.mode i).length + 1)
              lastPressTime := Function.update s.lastPressTime i (u32 now)
              lastCharIdx := some i
              buffer := applyEdits s.buffer (pressEdits s i now)
              popover := s.popover }, pressEdits s i now) := by
  obtain ⟨hne, hlen, hnul, hsp⟩ := t9_chars_facts s.mode i
  have hn : 0 < (t9_chars s.mode i).length := List.length_pos.mpr hne
  rcases Nat.lt_or_ge (cyc0 s i now) (t9_chars s.mode i).length with hlt | hge
  · -- the read lands on a stored character
    have hmem : (t9_chars s.mode i).get ⟨cyc0 s i now, hlt⟩ ∈ t9_chars s.mode i :=
      List.get_mem _ _ _
    have hcne : (t9_chars s.mode i).get ⟨cyc0 s i now, hlt⟩ ≠ Char.ofNat 0 :=
      fun h => hnul (h ▸ hmem)
    have hcsp : (t9_chars s.mode i).get ⟨cyc0 s i now, hlt⟩ ≠ ' ' :=
      fun h => hsp (h ▸ hmem)
    have hmod : cyc0 s i now % (t9_chars s.mode i).length = cyc0 s i now :=
      Nat.mod_eq_of_lt hlt
    have hcommit : commitChar s i now = (t9_chars s.mode i).get ⟨cyc0 s i now, hlt⟩ := by
      unfold commitChar
      rw [hmod, List.getD_eq_get?, List.get?_eq_get hlt, Option.getD_some]
    have hsucc : (cyc0 s i now + 1) % 256 = cyc0 s i now % (t9_chars s.mode i).length + 1 := by
      rw [hmod]
      exact Nat.mod_eq_of_lt (by omega)
    unfold pressNumeric
    rw [strRead_lt _ _ hlt, Option.map_some']
    simp only [if_neg hcne, if_neg hcsp, insert_test_eq]
    unfold pressEdits
    rw [hcommit, hsucc]
  · -- the read lands exactly on the terminator and wraps
    have heq : cyc0 s i now = (t9_chars s.mode i).length := le_antisymm hle hge
    have hmod : cyc0 s i now % (t9_chars s.mode i).length = 0 := by
      rw [heq]
      exact Nat.mod_self _
    have hhead : (t9_chars s.mode i).headD (Char.ofNat 0) ∈ t9_chars s.mode i := by
      rw [headD_eq_getD, List.getD_eq_get?, List.get?_eq_get hn, Option.getD_some]
      exact List.get_mem _ _ _
    have hcsp : (t9_chars s.mode i).headD (Char.ofNat 0) ≠ ' ' :=
      fun h => hsp (h ▸ hhead)
    have hcommit : commitChar s i now = (t9_chars s.mode i).headD (Char.ofNat 0) := by
      unfold commitChar
      rw [hmod, headD_eq_getD]
    have hread : strRead (t9_chars s.mode i) (cyc0 s i now) = some (Char.ofNat 0) := by
      rw [heq]
      exact strRead_len _
    unfold pressNumeric
    rw [hread, Option.map_some']
    simp only [reduceIte, if_neg hcsp, insert_test_eq]
    unfold pressEdits
    rw [hcommit, hmod]

/-- A defined press implies the read stayed inside the active array. -/
theorem press_defined_le (s : T9State) (i : Fin 10) (now : Nat)
    (p : T9State × List TextEdit) (h : pressNumeric s i now = some p) :
    cyc0 s i now ≤ (t9_chars s.mode i).length := by
  by_contra hgt
  push_neg at hgt
  unfold pressNumeric at h
  rw [strRead_gt _ _ hgt, Option.map_none'] at h
  exact Option.noConfusion h

/-- The edits of a press always commit the resolved cycle character. -/
theorem committed_pressEdits (s : T9State) (i : Fin 10) (now : Nat) :
    committedChar (pressEdits s i now) = some (commitChar s i now) := by
  unfold pressEdits
  split <;> rfl

/-- A press that is not a continuation, or that happens on an empty
buffer, emits an insert only. -/
theorem press_inserts (s : T9State) (i : Fin 10) (now : Nat)
    (s2 : T9State) (edits : List TextEdit)
    (hcase : isCont s i now = false ∨ s.buffer = [])
    (h : pressNumeric s i now = some (s2, edits)) :
    edits = [TextEdit.insertChar (commitChar s i now)] := by
  have hle := press_defined_le s i now _ h
  rw [press_spec s i now hle] at h
  have hed : pressEdits s i now = edits := congrArg Prod.snd (Option.some.inj h)
  have hcond : (resetCond s i now || decide (s.buffer = [])) = true := by
    rcases hcase with hc | hb
    · rw [resetCond_eq_not_isCont, hc]
      rfl
    · simp [hb]
  rw [← hed]
  unfold pressEdits
  rw [if_pos hcond]

/-- A continuation press on a non-empty buffer emits delete-then-insert. -/
theorem press_cont_replaces (s : T9State) (i : Fin 10) (now : Nat)
    (s2 : T9State) (edits : List TextEdit)
    (hc : isCont s i now = true) (hb : s.buffer ≠ [])
    (h : pressNumeric s i now = some (s2, edits)) :
    edits = [TextEdit.deleteLastChar, TextEdit.insertChar (commitChar s i now)] := by
  have hle := press_defined_le s i now _ h
  rw [press_spec s i now hle] at h
  have hed : pressEdits s i now = edits := congrArg Prod.snd (Option.some.inj h)
  have hcond : (resetCond s i now || decide (s.buffer = [])) = false := by
    rw [resetCond_eq_not_isCont, hc]
    simp [hb]
  rw [← hed]
  unfold pressEdits
  rw [if_neg (by simp [hcond])]

theorem cycle_index_step (k j n : Nat) : (k % n + 1 + j) % n = (k + (j + 1)) % n := by
  rw [Nat.add_assoc, Nat.mod_add_mod, Nat.add_comm 1 j]

/-- Prepending the committed character of index `k % n` to the cyclic run
starting at `k % n + 1` gives the cyclic run starting at `k`. -/
theorem commit_list_step (cs : List Char) (k m : Nat) :
    cs.getD (k % cs.length) (Char.ofNat 0) ::
      (List.range m).map
        (fun j => cs.getD ((k % cs.length + 1 + j) % cs.length) (Char.ofNat 0))
      = (List.range (m + 1)).map
        (fun j => cs.getD ((k + j) % cs.length) (Char.ofNat 0)) := by
  have hf : (fun j => cs.getD ((k % cs.length + 1 + j) % cs.length) (Char.ofNat 0))
      = ((fun j => cs.getD ((k + j) % cs.length) (Char.ofNat 0)) ∘ Nat.succ) := by
    funext j
    simp only [Function.comp_apply]
    rw [cycle_index_step]
  rw [List.range_succ_eq_map, List.map_cons, List.map_map, hf]
  simp

/-- Committed characters of a continuation run: from a state whose active
key is `i`, whose stored cycle index is at most the length of the active
array, and whose stored press time is below the `uint32_t` modulus, a
chain of presses of `i` commits the cyclic sequence of the active array
starting at the stored index. -/
theorem run_spec (i : Fin 10) (mode : T9Mode) (ts : List Nat) :
    ∀ (s : T9State),
      s.mode = mode →
      s.lastCharIdx = some i →
      s.cycleIdx i ≤ (t9_chars mode i).length →
      s.lastPressTime i < U32 →
      chainOk (s.lastPressTime i) ts = true →
      ∃ s2, runPresses i s ts =
        some (s2, (List.range ts.length).map
          (fun j => (t9_chars mode i).getD
            ((s.cycleIdx i + j) % (t9_chars mode i).length) (Char.ofNat 0))) := by
  induction ts with
  | nil =>
    intro s _ _ _ _ _
    exact ⟨s, rfl⟩
  | cons t ts ih =>
    intro s hm hl hk hp hch
    obtain ⟨hne, hlen, -, -⟩ := t9_chars_facts mode i
    have hn : 0 < (t9_chars mode i).length := List.length_pos.mpr hne
    have hch4 : s.lastPressTime i ≤ t ∧ t - s.lastPressTime i ≤ T9_CYCLE_TIMEOUT_MS ∧
        t < U32 ∧ chainOk t ts = true := by
      unfold chainOk at hch
      simp only [Bool.and_eq_true, decide_eq_true_eq] at hch
      exact ⟨hch.1.1.1, hch.1.1.2, hch.1.2, hch.2⟩
    obtain ⟨h1, h2, h3, h4⟩ := hch4
    have hsub : u32sub t (s.lastPressTime i) = t - s.lastPressTime i :=
      u32sub_eq _ _ h1 h3
    have hreset : resetCond s i t = false := by
      unfold resetCond
      rw [hsub]
      have hx : decide (s.lastCharIdx ≠ some i) = false := by simp [hl]
      have hy : decide (T9_CYCLE_TIMEOUT_MS < t - s.lastPressTime i) = false := by
        simp only [decide_eq_false_iff_not, not_lt]
        exact h2
      rw [hx, hy]
      rfl
    have hcyc : cyc0 s i t = s.cycleIdx i := by
      unfold cyc0
      rw [hreset]
      rfl
    have hle : cyc0 s i t ≤ (t9_chars s.mode i).length := by
      rw [hcyc, hm]
      exact hk
    have hpress := press_spec s i t hle
    have hcommit : commitChar s i t
        = (t9_chars mode i).getD (s.cycleIdx i % (t9_chars mode i).length)
            (Char.ofNat 0) := by
      unfold commitChar
      rw [hcyc, hm]
    -- the state after the first press
    have hstep := ih { mode := s.mode
                       cycleIdx := Function.update s.cycleIdx i
                         (cyc0 s i t % (t9_chars s.mode i).length + 1)
                       lastPressTime := Function.update s.lastPressTime i (u32 t)
                       lastCharIdx := some i
                       buffer := applyEdits s.buffer (pressEdits s i t)
                       popover := s.popover }
      hm (by rfl)
      (by
        simp only [Function.update_same]
        rw [hcyc, hm]
        have := Nat.mod_lt (s.cycleIdx i) hn
        omega)
      (by
        simp only [Function.update_same]
        unfold u32 U32
        omega)
      (by
        simp only [Function.update_same]
        unfold u32
        rw [Nat.mod_eq_of_lt h3]
        exact h4)
    obtain ⟨s2, hrun⟩ := hstep
    simp only [Function.update_same] at hrun
    refine ⟨s2, ?_⟩
    have hrp : runPresses i s (t :: ts)
        = some (s2, commitChar s i t ::
            (List.range ts.length).map
              (fun j => (t9_chars mode i).getD
                ((cyc0 s i t % (t9_chars s.mode i).length + 1 + j)
                  % (t9_chars mode i).length) (Char.ofNat 0))) := by
      unfold runPresses
      rw [hpress]
      simp only [Option.some_bind]
      rw [committed_pressEdits]
      simp only [Option.some_bind]
      rw [hrun, Option.map_some']
    rw [hrp, hcommit, hcyc, hm, List.length_cons]
    exact congrArg (fun l => some (s2, l))
      (commit_list_step (t9_chars mode i) (s.cycleIdx i) ts.length)

theorem getD_eq_getElem_of_lt (cs : List Char) (n : Nat) (d : Char)
    (h : n < cs.length) : cs.getD n d = cs[n] := by
  rw [List.getD_eq_getElem?_getD, List.getElem?_eq_getElem h, Option.getD_some]

/-- One full cyclic pass starting at index 0, with one extra press, lists
the whole array followed by its first character again. -/
theorem cycle_full_list (cs : List Char) (hne : cs ≠ []) :
    (List.range (cs.length + 1)).map
        (fun j => cs.getD ((0 + j) % cs.length) (Char.ofNat 0))
      = cs ++ [cs.getD 0 (Char.ofNat 0)] := by
  have hn : 0 < cs.length := List.length_pos.mpr hne
  apply List.ext_getElem
  · simp
  · intro k h1 h2
    simp only [List.getElem_map, List.getElem_range, Nat.zero_add]
    rcases Nat.lt_or_ge k cs.length with hk | hk
    · rw [Nat.mod_eq_of_lt hk, List.getElem_append_left hk,
        getD_eq_getElem_of_lt cs k _ hk]
    · have hkn : k = cs.length := by
        simp only [List.length_map, List.length_range] at h1
        omega
      subst hkn
      rw [Nat.mod_self, List.getElem_append_right hk]
      simp

/-- Claim C2: for every key and every mode, a run of n+1 consecutive
presses of that key, the first starting a fresh cycle and each following
one within the timeout of the previous one, commits the characters of the
active candidate array in order for the first n presses and wraps back to
the character at index 0 on the (n+1)th press (n = length of the array). -/
theorem c2_cycle_through_and_wrap (s : T9State) (i : Fin 10) (t0 : Nat) (ts : List Nat)
    (hfresh : s.lastCharIdx ≠ some i)
    (ht0 : t0 < U32)
    (hchain : chainOk t0 ts = true)
    (hlen : ts.length = (t9_chars s.mode i).length) :
    ∃ s2, runPresses i s (t0 :: ts) =
      some (s2, t9_chars s.mode i ++ [(t9_chars s.mode i).getD 0 (Char.ofNat 0)]) := by
  obtain ⟨hne, -, -, -⟩ := t9_chars_facts s.mode i
  have hn : 0 < (t9_chars s.mode i).length := List.length_pos.mpr hne
  have hreset : resetCond s i t0 = true := by
    unfold resetCond
    simp [hfresh]
  have hcyc : cyc0 s i t0 = 0 := by
    unfold cyc0
    rw [hreset]
    rfl
  have hpress := press_spec s i t0 (by rw [hcyc]; exact Nat.zero_le _)
  have hstep := run_spec i s.mode ts
    { mode := s.mode
      cycleIdx := Function.update s.cycleIdx i
        (cyc0 s i t0 % (t9_chars s.mode i).length + 1)
      lastPressTime := Function.update s.lastPressTime i (u32 t0)
      lastCharIdx := some i
      buffer := applyEdits s.buffer (pressEdits s i t0)
      popover := s.popover }
    rfl rfl
    (by
      simp only [Function.update_same]
      rw [hcyc, Nat.zero_mod]
      exact hn)
    (by
      simp only [Function.update_same]
      unfold u32 U32
      omega)
    (by
      simp only [Function.update_same]
      unfold u32
      rw [Nat.mod_eq_of_lt ht0]
      exact hchain)
  obtain ⟨s2, hrun⟩ := hstep
  simp only [Function.update_same] at hrun
  refine ⟨s2, ?_⟩
  have hrp : runPresses i s (t0 :: ts)
      = some (s2, commitChar s i t0 ::
          (List.range ts.length).map
            (fun j => (t9_chars s.mode i).getD
              ((cyc0 s i t0 % (t9_chars s.mode i).length + 1 + j)
                % (t9_chars s.mode i).length) (Char.ofNat 0))) := by
    unfold runPresses
    rw [hpress]
    simp only [Option.some_bind]
    rw [committed_pressEdits]
    simp only [Option.some_bind]
    rw [hrun, Option.map_some']
  rw [hrp]
  have hcommit0 : commitChar s i t0
      = (t9_chars s.mode i).getD (0 % (t9_chars s.mode i).length) (Char.ofNat 0) := by
    unfold commitChar
    rw [hcyc]
  rw [hcommit0, hcyc, commit_list_step (t9_chars s.mode i) 0 ts.length, hlen]
  exact congrArg (fun l => some (s2, l)) (cycle_full_list (t9_chars s.mode i) hne)

/-- A state in which key "2" (index 1) is the active key with cycle index
1 and last press at tick 0, over a one-character buffer. -/
def stateContNonempty : T9State :=
  { mode := T9Mode.lower
    cycleIdx := Function.update (fun _ => 0) 1 1
    lastPressTime := fun _ => 0
    lastCharIdx := some 1
    buffer := ['a']
    popover := none }

/-- The same continuation scenario over an empty buffer. -/
def stateContEmpty : T9State :=
  { mode := T9Mode.lower
    cycleIdx := Function.update (fun _ => 0) 1 1
    lastPressTime := fun _ => 0
    lastCharIdx := some 1
    buffer := []
    popover := none }

/-- The initial state switched to numeric mode. -/
def numState : T9State := { initState with mode := T9Mode.numbers }

/-- Counterexample to C1 as stated: a continuation press (same key as the
active key, gap 500 within the 1000 ms timeout) on an empty buffer emits
an insert only, not DeleteLastChar followed by InsertChar. -/
theorem c1_counterexample :
    isCont stateContEmpty 1 500 = true ∧
    (pressNumeric stateContEmpty 1 500).map Prod.snd
      = some [TextEdit.insertChar 'b'] := by
  exact ⟨by decide, by decide⟩

/-- Claim C1 (amended): a press is a continuation exactly when the key
equals the active key and the gap is at most the timeout (boundary
inclusive); a continuation on a non-empty buffer emits DeleteLastChar then
InsertChar of the resolved cycle character, while a continuation on an
empty buffer, or any non-continuation press, emits InsertChar only. -/
theorem c1_press_policy (s : T9State) (i : Fin 10) (t : Nat)
    (s2 : T9State) (edits : List TextEdit)
    (h : pressNumeric s i t = some (s2, edits)) :
    (isCont s i t = true → s.buffer ≠ [] →
      edits = [TextEdit.deleteLastChar, TextEdit.insertChar (commitChar s i t)]) ∧
    (isCont s i t = true → s.buffer = [] →
      edits = [TextEdit.insertChar (commitChar s i t)]) ∧
    (isCont s i t = false →
      edits = [TextEdit.insertChar (commitChar s i t)]) := by
  refine ⟨fun hc hb => press_cont_replaces s i t s2 edits hc hb h,
    fun _ hb => press_inserts s i t s2 edits (Or.inr hb) h,
    fun hc => press_inserts s i t s2 edits (Or.inl hc) h⟩

/-- Witness for C1 at a continuation press over a non-empty buffer. -/
theorem c1_press_policy_witness :
    isCont stateContNonempty 1 500 = true ∧ stateContNonempty.buffer ≠ [] ∧
    (pressNumeric stateContNonempty 1 500).map Prod.snd
      = some [TextEdit.deleteLastChar, TextEdit.insertChar 'b'] := by
  refine ⟨by decide, by decide, ?_⟩
  obtain ⟨s2, edits, h⟩ : ∃ a b, pressNumeric stateContNonempty 1 500 = some (a, b) :=
    ⟨_, _, rfl⟩
  have he := (c1_press_policy stateContNonempty 1 500 s2 edits h).1 (by decide) (by decide)
  rw [h, Option.map_some']
  show some edits = _
  rw [he]
  have hcb : commitChar stateContNonempty 1 500 = 'b' := by decide
  rw [hcb]

/-- Claim C9: with an empty buffer, a numeric key press emits exactly one
insert and never a DeleteLastChar, even when the press is a continuation. -/
theorem c9_empty_buffer_insert_only (s : T9State) (i : Fin 10) (t : Nat)
    (s2 : T9State) (edits : List TextEdit)
    (hbuf : s.buffer = [])
    (h : pressNumeric s i t = some (s2, edits)) :
    edits = [TextEdit.insertChar (commitChar s i t)] ∧
    TextEdit.deleteLastChar ∉ edits := by
  have he := press_inserts s i t s2 edits (Or.inr hbuf) h
  refine ⟨he, ?_⟩
  rw [he]
  simp

/-- Witness for C9: the continuation press over the empty buffer inserts
only. -/
theorem c9_empty_buffer_insert_only_witness :
    stateContEmpty.buffer = [] ∧
    (pressNumeric stateContEmpty 1 500).map Prod.snd
      = some [TextEdit.insertChar 'b'] := by
  refine ⟨rfl, ?_⟩
  obtain ⟨s2, edits, h⟩ : ∃ a b, pressNumeric stateContEmpty 1 500 = some (a, b) :=
    ⟨_, _, rfl⟩
  have he := (c9_empty_buffer_insert_only stateContEmpty 1 500 s2 edits rfl h).1
  rw [h, Option.map_some']
  show some edits = _
  rw [he]
  have hcb : commitChar stateContEmpty 1 500 = 'b' := by decide
  rw [hcb]

/-- Counterexample to C3 as stated: press key "2" (commits the character
a, cycle index 1), toggle the alpha case, press key "2" again 100 ms
later: the press continues the old cycle (index advances to 2, the
upper-case character B replaces the previous character) instead of
starting a fresh cycle at index 0 and inserting. -/
theorem c3_counterexample :
    ((pressNumeric initState 1 0).bind
        (fun p => pressNumeric (toggleAlpha p.1) 1 100)).map
        (fun p => (p.2, p.1.cycleIdx 1, p.1.buffer))
      = some ([TextEdit.deleteLastChar, TextEdit.insertChar 'B'], 2, ['B']) := by
  decide

/-- Claim C3 (amended): mode toggles change only the mode: every stored
per-key cycle index and press time and the active key survive both
toggles unchanged, so the first press after a toggle starts a fresh cycle
only when the ordinary reset condition (different key, or timeout
exceeded) holds. -/
theorem c3_toggles_preserve_cycle_state (s : T9State) :
    (toggleAlpha s).cycleIdx = s.cycleIdx ∧
    (toggleAlpha s).lastPressTime = s.lastPressTime ∧
    (toggleAlpha s).lastCharIdx = s.lastCharIdx ∧
    (toggleNumeric s).cycleIdx = s.cycleIdx ∧
    (toggleNumeric s).lastPressTime = s.lastPressTime ∧
    (toggleNumeric s).lastCharIdx = s.lastCharIdx := by
  unfold toggleAlpha toggleNumeric
  rcases s with ⟨m, ci, lp, lc, buf, po⟩
  cases m <;> exact ⟨rfl, rfl, rfl, rfl, rfl, rfl⟩

/-- Counterexample to C4 as stated: a long press of key "2" (index 1)
while the mode is numeric is not ignored: it opens a popover (carrying the
single digit 2). -/
theorem c4_counterexample :
    numState.mode = T9Mode.numbers ∧ numState.popover = none ∧
    (longPress numState 1).1.popover = some ['2'] := by
  refine ⟨rfl, rfl, by decide⟩

/-- Claim C4 (amended): a long press of a numeric key in numeric mode is
not ignored: it opens a popover carrying the active array of the pressed
key (the symbol sets for keys "1" and "0", the single digit for keys
"2".."9") and changes nothing else in the engine state. -/
theorem c4_numeric_longpress_opens_popover (s : T9State) (i : Fin 10)
    (hm : s.mode = T9Mode.numbers) :
    longPress s i
      = ({ s with popover := some (t9_chars T9Mode.numbers i) },
          t9_chars T9Mode.numbers i) := by
  unfold longPress
  rw [hm]

/-- Witness for C4 at key "2" in numeric mode. -/
theorem c4_numeric_longpress_opens_popover_witness :
    numState.mode = T9Mode.numbers ∧
    (longPress numState 1).1.popover = some ['2'] ∧
    (longPress numState 1).2 = ['2'] := by
  have h := c4_numeric_longpress_opens_popover numState 1 rfl
  refine ⟨rfl, ?_, ?_⟩
  · rw [h]
    decide
  · rw [h]
    decide

/-- Counterexample to C5 as stated: in numeric mode, pressing key "1"
(index 0) commits the first character of `t9_btn_symbols_1`, a colon, not
the digit 1. -/
theorem c5_counterexample :
    numState.mode = T9Mode.numbers ∧
    (pressNumeric numState 0 0).map (fun p => committedChar p.2)
      = some (some ':') ∧
    (':' : Char) ≠ '1' := by
  refine ⟨rfl, by decide, by decide⟩

/-- Claim C5 (amended): in numeric mode the active array of each of the
keys "2".."9" is that key's single digit, so every defined press of such a
key commits exactly that digit and repeated presses never produce a
different character; keys "1" and "0" instead use their mode-independent
symbol arrays. -/
theorem c5_numeric_digit_keys (s : T9State) (i : Fin 10) (t : Nat)
    (s2 : T9State) (edits : List TextEdit)
    (hm : s.mode = T9Mode.numbers) (h1 : 1 ≤ i.val) (h8 : i.val ≤ 8)
    (h : pressNumeric s i t = some (s2, edits)) :
    (t9_chars T9Mode.numbers i).length = 1 ∧
    committedChar edits
      = some ((t9_chars T9Mode.numbers i).getD 0 (Char.ofNat 0)) := by
  have hle := press_defined_le s i t _ h
  rw [press_spec s i t hle] at h
  have hed : pressEdits s i t = edits := congrArg Prod.snd (Option.some.inj h)
  have hlen1 : (t9_chars T9Mode.numbers i).length = 1 := by
    fin_cases i
    all_goals first
      | decide
      | exact absurd h1 (by decide)
      | exact absurd h8 (by decide)
  refine ⟨hlen1, ?_⟩
  rw [← hed, committed_pressEdits]
  unfold commitChar
  rw [hm, hlen1, Nat.mod_one]

/-- Witness for C5 at key "2" in numeric mode. -/
theorem c5_numeric_digit_keys_witness :
    numState.mode = T9Mode.numbers ∧ (t9_chars T9Mode.numbers 1).length = 1 ∧
    (pressNumeric numState 1 7).map (fun p => committedChar p.2)
      = some (some '2') := by
  obtain ⟨s2, edits, h⟩ : ∃ a b, pressNumeric numState 1 7 = some (a, b) :=
    ⟨_, _, rfl⟩
  obtain ⟨hl1, hc⟩ :=
    c5_numeric_digit_keys numState 1 7 s2 edits rfl (by decide) (by decide) h
  refine ⟨rfl, hl1, ?_⟩
  rw [h, Option.map_some']
  show some (committedChar edits) = _
  rw [hc]
  decide

/-- Counterexample to C6 as stated: with the popover of
`t9_btn_symbols_0` open, selecting the character z, which is not a member
of the open symbol set, still inserts it and closes the popover: nothing
is rejected. -/
theorem c6_counterexample :
    ('z' ∉ t9_btn_symbols_0) ∧
    (symbolSelect { initState with popover := some t9_btn_symbols_0 } 'z').1.buffer
      = ['z'] ∧
    (symbolSelect { initState with popover := some t9_btn_symbols_0 } 'z').1.popover
      = none ∧
    (symbolSelect { initState with popover := some t9_btn_symbols_0 } 'z').2
      = [TextEdit.insertChar 'z'] := by
  refine ⟨by decide, rfl, rfl, rfl⟩

/-- Claim C6 (amended): the engine performs no membership validation on a
symbol selection: any selected character, member of the open popover set
or not, is inserted at the end of the buffer and the popover closes. -/
theorem c6_symbol_selection_unvalidated (s : T9State) (c : Char) :
    symbolSelect s c
      = ({ s with buffer := s.buffer ++ [c], popover := none },
          [TextEdit.insertChar c]) := rfl

/-- Counterexample to C7 as stated: press key "2" (commits a), press
space (buffer holds a and a space, but the active key is still key "2",
not none), press key "2" again 200 ms later: the press is treated as a
continuation and replaces the space with b, leaving the buffer a b,
instead of starting a fresh cycle and inserting. -/
theorem c7_counterexample :
    ((pressNumeric initState 1 0).map (fun p => (pressSpace p.1).1.lastCharIdx))
      = some (some 1) ∧
    ((pressNumeric initState 1 0).bind
        (fun p => pressNumeric (pressSpace p.1).1 1 200)).map
        (fun p => (p.2, p.1.buffer))
      = some ([TextEdit.deleteLastChar, TextEdit.insertChar 'b'], ['a', 'b']) := by
  exact ⟨by decide, by decide⟩

/-- Claim C7 (amended): the space helper emits InsertChar of a space and
leaves the active key and all cycle state unchanged; consequently a
numeric key press right after the space that satisfies the continuation
test is a continuation over a non-empty buffer and replaces the last
buffer character (the space) instead of inserting. -/
theorem c7_space_keeps_cycle (s : T9State) :
    pressSpace s
      = ({ s with buffer := s.buffer ++ [' '] }, [TextEdit.insertChar ' ']) ∧
    (pressSpace s).1.lastCharIdx = s.lastCharIdx ∧
    (pressSpace s).1.cycleIdx = s.cycleIdx ∧
    (pressSpace s).1.lastPressTime = s.lastPressTime ∧
    (∀ (i : Fin 10) (t : Nat) (s2 : T9State) (edits : List TextEdit),
      isCont (pressSpace s).1 i t = true →
      pressNumeric (pressSpace s).1 i t = some (s2, edits) →
      edits = [TextEdit.deleteLastChar,
        TextEdit.insertChar (commitChar (pressSpace s).1 i t)]) := by
  refine ⟨rfl, rfl, rfl, rfl, ?_⟩
  intro i t s2 edits hc h
  exact press_cont_replaces _ i t s2 edits hc (by simp [pressSpace]) h

/-- Witness for C7: after a space, the in-timeout press of the still
active key "2" replaces. -/
theorem c7_space_keeps_cycle_witness :
    isCont (pressSpace stateContNonempty).1 1 500 = true ∧
    (pressNumeric (pressSpace stateContNonempty).1 1 500).map Prod.snd
      = some [TextEdit.deleteLastChar, TextEdit.insertChar 'b'] := by
  refine ⟨by decide, ?_⟩
  obtain ⟨s2, edits, h⟩ : ∃ a b,
      pressNumeric (pressSpace stateContNonempty).1 1 500 = some (a, b) :=
    ⟨_, _, rfl⟩
  have he := (c7_space_keeps_cycle stateContNonempty).2.2.2.2 1 500 s2 edits
    (by decide) h
  rw [h, Option.map_some']
  show some edits = _
  rw [he]
  have hcb : commitChar (pressSpace stateContNonempty).1 1 500 = 'b' := by decide
  rw [hcb]

/-- Counterexample to C8 as stated: a long press of key "1" (index 0) in
lower mode opens the popover of `t9_btn_symbols_1`, which is not the
15-symbol extended set named by the claim and does not even contain the
hash character. -/
theorem c8_counterexample :
    initState.mode = T9Mode.lower ∧
    (longPress initState 0).2 = t9_btn_symbols_1 ∧
    (longPress initState 0).2 ≠ "!\"#$%&'()*+,-./".toList ∧
    '#' ∉ (longPress initState 0).2 := by
  refine ⟨rfl, rfl, by decide, by decide⟩

/-- Claim C8 (amended): a long press of key "0" (index 9) in lower mode
opens a popover whose symbol sequence is exactly the 15-character extended
set of `t9_btn_symbols_0`, carried verbatim; selecting the hash character
from it inserts it, closes the popover, and leaves every stored per-key
cycle index and press time and the active key unchanged. -/
theorem c8_key0_longpress_symbols (s : T9State) (_hm : s.mode = T9Mode.lower) :
    (longPress s 9).2 = "!\"#$%&'()*+,-./".toList ∧
    (longPress s 9).1.popover = some ("!\"#$%&'()*+,-./".toList) ∧
    ("!\"#$%&'()*+,-./".toList).length = 15 ∧
    '#' ∈ "!\"#$%&'()*+,-./".toList ∧
    (symbolSelect (longPress s 9).1 '#').2 = [TextEdit.insertChar '#'] ∧
    (symbolSelect (longPress s 9).1 '#').1.buffer = s.buffer ++ ['#'] ∧
    (symbolSelect (longPress s 9).1 '#').1.popover = none ∧
    (symbolSelect (longPress s 9).1 '#').1.cycleIdx = s.cycleIdx ∧
    (symbolSelect (longPress s 9).1 '#').1.lastPressTime = s.lastPressTime ∧
    (symbolSelect (longPress s 9).1 '#').1.lastCharIdx = s.lastCharIdx := by
  refine ⟨rfl, rfl, by decide, by decide, rfl, rfl, rfl, rfl, rfl, rfl⟩

/-- Witness for C8 at the initial state. -/
theorem c8_key0_longpress_symbols_witness :
    initState.mode = T9Mode.lower ∧
    (longPress initState 9).2 = "!\"#$%&'()*+,-./".toList ∧
    (symbolSelect (longPress initState 9).1 '#').1.buffer = ['#'] := by
  obtain ⟨h1, h2, h3, h4, h5, h6, h7, h8, h9, h10⟩ :=
    c8_key0_longpress_symbols initState rfl
  exact ⟨rfl, h1, by rw [h6]; rfl⟩

/-- Claim C10 is refuted by the code at a reachable input: after five
in-timeout presses of key "7" (index 6) in lower mode (committing p q r s
7), the stored cycle index is 5; toggling to numeric mode shrinks the
active array to the single digit 7, and a further in-timeout press reads
the array at index 5, beyond the NUL terminator: an out-of-bounds read
(modelled as `none`), so the press does not commit a character drawn from
the active array. -/
theorem c10_out_of_bounds_read :
    (runPresses 6 initState [0, 100, 200, 300, 400]).map Prod.snd
      = some "pqrs7".toList ∧
    (runPresses 6 initState [0, 100, 200, 300, 400]).map (fun p => p.1.cycleIdx 6)
      = some 5 ∧
    (t9_chars T9Mode.numbers 6).length = 1 ∧
    (runPresses 6 initState [0, 100, 200, 300, 400]).map
        (fun p => isCont (toggleNumeric p.1) 6 900)
      = some true ∧
    (runPresses 6 initState [0, 100, 200, 300, 400]).map
        (fun p => (pressNumeric (toggleNumeric p.1) 6 900).isSome)
      = some false := by
  refine ⟨by decide, by decide, by decide, by decide, by decide⟩

/-- Witness for C2: five presses of key "2" (index 1) in lower mode at
ticks 0, 100, 200, 300, 400 cycle through a b c 2 and wrap back to a. -/
theorem c2_cycle_through_and_wrap_witness :
    initState.lastCharIdx ≠ some 1 ∧
    chainOk 0 [100, 200, 300, 400] = true ∧
    [100, 200, 300, 400].length = (t9_chars initState.mode 1).length ∧
    (∃ s2, runPresses 1 initState [0, 100, 200, 300, 400] =
      some (s2, t9_chars initState.mode 1
        ++ [(t9_chars initState.mode 1).getD 0 (Char.ofNat 0)])) := by
  refine ⟨by decide, by decide, by decide, ?_⟩
  exact c2_cycle_through_and_wrap initState 1 0 [100, 200, 300, 400]
    (by decide) (by decide) (by decide) (by decide)
